import Mathlib

/-!
Verification of the scoring engine of the Big5-60p repository
(`score_answers` in `app.py`, lines 91-137), shallowly embedded in Lean.

The form dictionary is modelled as a function from keys to optional raw
values; a raw value is abstracted by whether Python's `int()` succeeds on
it and, if so, which integer it yields.  Python's float expression
`int(round((sums[t] - min_total) * 100.0 / rng))` is modelled as exact
round-half-to-even of the integer quotient (`pyRound`), which agrees with
CPython's float computation for the magnitudes arising here.
-/

/-- A normalized item record, as produced by `load_assessment`:
`{"id": ..., "text": ..., "trait": ..., "reverse": ...}`. -/
structure Item where
  id : Int
  text : String
  trait : String
  reverse : Bool
deriving DecidableEq

/-- The scale bounds `spec["scale"]["min"]` / `spec["scale"]["max"]`. -/
structure Scale where
  min : Int
  max : Int
deriving DecidableEq

/-- The parts of the assessment `spec` dictionary read by `score_answers`. -/
structure Spec where
  scale : Scale
  items : List Item
deriving DecidableEq

/-- A raw form value: a string on which Python's `int()` either succeeds
with value `n` (`intVal n`) or raises `ValueError` (`nonInt`). -/
inductive FormVal where
  | intVal (n : Int) : FormVal
  | nonInt : FormVal
deriving DecidableEq

/-- `int(val_str)`: the result of Python integer parsing on a raw value. -/
def parseInt : FormVal → Option Int
  | .intVal n => some n
  | .nonInt => none

/-- `form_dict`: a mapping from form keys to raw values; `form_dict.get`
returns `none` when the key is absent. -/
abbrev FormDict := String → Option FormVal

/-- The `ValueError`s raised inside `score_answers`:
`"Falta responder el ítem {qid}"`, `"Respuesta inválida en ítem {qid}"`,
and `"Ítem {qid} con rasgo desconocido: {trait}"`. -/
inductive ScoreError where
  | missingAnswer (qid : Int) : ScoreError
  | invalidValue (qid : Int) : ScoreError
  | unknownTrait (qid : Int) (trait : String) : ScoreError
deriving DecidableEq

/-- One step of the Python dict comprehension
`{int(it["id"]): it for it in spec["items"]}`: a repeated key keeps its
first position but is overwritten with the later item. -/
def insertItem (m : List (Int × Item)) (it : Item) : List (Int × Item) :=
  if m.any (fun p => p.1 == it.id) then
    m.map (fun p => if p.1 = it.id then (p.1, it) else p)
  else
    m ++ [(it.id, it)]

/-- `items_by_id = {int(it["id"]): it for it in spec["items"]}`, as an
association list in Python dict iteration order. -/
def itemsById (items : List Item) : List (Int × Item) :=
  items.foldl insertItem []

/-- `traits = ["O", "C", "E", "A", "N"]` (line 100). -/
def traits : List String := ["O", "C", "E", "A", "N"]

/-- The `sums` dictionary, as an association list in insertion order. -/
abbrev Sums := List (String × Int)

/-- `sums = {t: 0 for t in traits}` (line 101). -/
def initSums : Sums := traits.map (fun t => (t, 0))

/-- Python key membership `trait in sums`. -/
def sumsMem (m : Sums) (t : String) : Bool :=
  m.any (fun p => p.1 == t)

/-- Python `sums[trait] += val`: update the entry whose key is `t`. -/
def sumsAdd (m : Sums) (t : String) (v : Int) : Sums :=
  m.map (fun p => if p.1 = t then (p.1, p.2 + v) else p)

/-- Python dict indexing `m[t]` for string-keyed integer dicts; the
default `0` is never reached on the keys `score_answers` uses. -/
def dictGet (m : List (String × Int)) (t : String) : Int :=
  (((m.find? (fun p => p.1 == t)).map Prod.snd)).getD 0

/-- The per-item loop of `score_answers` (lines 105-121): for each
`(qid, item)` of `items_by_id`, fetch `form_dict[f"q{qid}"]` (error
`missingAnswer` if absent), parse it (`invalidValue` if not an integer),
reflect reverse-keyed items via `s_min + s_max - val`, check the trait is
a known key of `sums` (`unknownTrait` otherwise), and accumulate. -/
def processItems (form : FormDict) (sMin sMax : Int) :
    List (Int × Item) → Sums → Except ScoreError Sums
  | [], sums => .ok sums
  | (qid, item) :: rest, sums =>
    match form ("q" ++ toString qid) with
    | none => .error (.missingAnswer qid)
    | some fv =>
      match parseInt fv with
      | none => .error (.invalidValue qid)
      | some v0 =>
        let v := if item.reverse then sMin + sMax - v0 else v0
        if sumsMem sums item.trait then
          processItems form sMin sMax rest (sumsAdd sums item.trait v)
        else
          .error (.unknownTrait qid item.trait)

/-- `min_total = 12 * s_min` (line 124). -/
def minTotal (sMin : Int) : Int := 12 * sMin

/-- `max_total = 12 * s_max` (line 125). -/
def maxTotal (sMax : Int) : Int := 12 * sMax

/-- `rng = max_total - min_total if (max_total - min_total) != 0 else 1`
(line 126). -/
def normRange (sMin sMax : Int) : Int :=
  if maxTotal sMax - minTotal sMin ≠ 0 then maxTotal sMax - minTotal sMin else 1

/-- Round half to even of the exact quotient `a / b`, for `b > 0`:
`a.fdiv b` is the floor of the quotient and `a - a.fdiv b * b` its
remainder, so the three branches are fractional part below, above, and
exactly at one half. -/
def pyRoundPos (a b : Int) : Int :=
  if 2 * (a - a.fdiv b * b) < b then a.fdiv b
  else if b < 2 * (a - a.fdiv b * b) then a.fdiv b + 1
  else if a.fdiv b % 2 = 0 then a.fdiv b else a.fdiv b + 1

/-- Python's `int(round(a / b))`: round half to even of the exact
quotient `a / b` (after normalizing the sign of the denominator).  The
score computation only calls this with `b ≠ 0`. -/
def pyRound (a b : Int) : Int :=
  if b < 0 then pyRoundPos (-a) (-b) else pyRoundPos a b

/-- `int(round((sums[t] - min_total) * 100.0 / rng))` for one trait sum
(line 128). -/
def pctOf (sMin sMax s : Int) : Int :=
  pyRound ((s - minTotal sMin) * 100) (normRange sMin sMax)

/-- `percent = {t: int(round((sums[t] - min_total) * 100.0 / rng)) for t in traits}`
(line 128). -/
def percentMap (sMin sMax : Int) (sums : Sums) : List (String × Int) :=
  traits.map (fun t => (t, pctOf sMin sMax (dictGet sums t)))

/-- The triple returned by `score_answers`: `sums`, `percent`,
`percent_list`. -/
structure ScoreResult where
  sums : Sums
  percent : List (String × Int)
  percentList : List (String × Int × Int)
deriving DecidableEq

/-- `score_answers(form_dict, spec)` (lines 91-137): run the per-item
loop over `items_by_id`, then compute the 0-100 normalization with the
fixed constant 12 and assemble `percent_list`. -/
def score_answers (form : FormDict) (spec : Spec) : Except ScoreError ScoreResult :=
  match processItems form spec.scale.min spec.scale.max (itemsById spec.items) initSums with
  | .error e => .error e
  | .ok sums =>
    let percent := percentMap spec.scale.min spec.scale.max sums
    .ok ⟨sums, percent,
      [("Apertura (O)", dictGet sums "O", dictGet percent "O"),
       ("Responsabilidad (C)", dictGet sums "C", dictGet percent "C"),
       ("Extraversión (E)", dictGet sums "E", dictGet percent "E"),
       ("Amabilidad (A)", dictGet sums "A", dictGet percent "A"),
       ("Neuroticismo (N)", dictGet sums "N", dictGet percent "N")]⟩

deriving instance DecidableEq for Except

/-! ### Basic lemmas about `pyRound` -/

theorem pyRound_of_pos {b : Int} (a : Int) (hb : 0 < b) :
    pyRound a b = pyRoundPos a b := by
  unfold pyRound
  rw [if_neg (by omega)]

theorem pyRoundPos_mul (k : Int) {b : Int} (hb : 0 < b) :
    pyRoundPos (k * b) b = k := by
  unfold pyRoundPos
  rw [Int.mul_fdiv_cancel _ (by omega : b ≠ 0)]
  rw [if_pos (by omega)]

theorem pyRoundPos_nonneg {a b : Int} (hb : 0 < b) (ha : 0 ≤ a) :
    0 ≤ pyRoundPos a b := by
  have hq : 0 ≤ a.fdiv b := by
    rw [Int.fdiv_eq_ediv _ (by omega)]
    exact Int.ediv_nonneg ha (by omega)
  unfold pyRoundPos
  split
  · exact hq
  · split
    · omega
    · split <;> omega

theorem pyRoundPos_le {a b u : Int} (hb : 0 < b) (hu : a ≤ u * b) :
    pyRoundPos a b ≤ u := by
  have hde : a.fdiv b = a / b := Int.fdiv_eq_ediv _ (by omega)
  have hlow : a / b * b ≤ a := Int.ediv_mul_le a (by omega)
  have hqu : a / b ≤ u := by
    have := le_trans hlow hu
    exact Int.le_of_mul_le_mul_right this hb
  unfold pyRoundPos
  rw [hde]
  split
  · exact hqu
  · have hrpos : 0 < a - a / b * b := by omega
    have hqlt : a / b < u := by
      have h1 : a / b * b < u * b := by omega
      exact lt_of_mul_lt_mul_right h1 (by omega)
    split
    · omega
    · split <;> omega

/-! ### Lemmas about the `sums` dictionary operations -/

theorem sumsAdd_cons (p : String × Int) (m : Sums) (t : String) (v : Int) :
    sumsAdd (p :: m) t v
      = (if p.1 = t then (p.1, p.2 + v) else p) :: sumsAdd m t v := rfl

theorem dictGet_cons (p : String × Int) (m : Sums) (t : String) :
    dictGet (p :: m) t = if p.1 = t then p.2 else dictGet m t := by
  unfold dictGet
  by_cases h : p.1 = t
  · rw [List.find?_cons_of_pos _ (by simpa using h), if_pos h]
    rfl
  · rw [List.find?_cons_of_neg _ (by simpa using h), if_neg h]

theorem sumsMem_cons (p : String × Int) (m : Sums) (t : String) :
    sumsMem (p :: m) t = ((p.1 == t) || sumsMem m t) := by
  simp [sumsMem]

theorem ite_sumsAdd_fst (p : String × Int) (t : String) (v : Int) :
    (if p.1 = t then (p.1, p.2 + v) else p).1 = p.1 := by
  by_cases h : p.1 = t <;> simp [h]

theorem sumsMem_sumsAdd (m : Sums) (t t' : String) (v : Int) :
    sumsMem (sumsAdd m t v) t' = sumsMem m t' := by
  induction m with
  | nil => rfl
  | cons p rest ih =>
    rw [sumsAdd_cons, sumsMem_cons, sumsMem_cons, ih, ite_sumsAdd_fst]

theorem sumsAdd_keys (m : Sums) (t : String) (v : Int) :
    (sumsAdd m t v).map Prod.fst = m.map Prod.fst := by
  induction m with
  | nil => rfl
  | cons p rest ih =>
    rw [sumsAdd_cons, List.map_cons, List.map_cons, ih, ite_sumsAdd_fst]

theorem dictGet_sumsAdd_same {m : Sums} {t : String} (v : Int)
    (h : sumsMem m t = true) :
    dictGet (sumsAdd m t v) t = dictGet m t + v := by
  induction m with
  | nil => simp [sumsMem] at h
  | cons p rest ih =>
    rw [sumsAdd_cons]
    by_cases hp : p.1 = t
    · rw [if_pos hp, dictGet_cons, dictGet_cons, if_pos hp, if_pos hp]
    · rw [sumsMem_cons] at h
      have hb : (p.1 == t) = false := by simpa using hp
      rw [hb, Bool.false_or] at h
      rw [if_neg hp, dictGet_cons, dictGet_cons, if_neg hp, if_neg hp]
      exact ih h

theorem dictGet_sumsAdd_ne {t t' : String} (m : Sums) (v : Int) (h : t' ≠ t) :
    dictGet (sumsAdd m t v) t' = dictGet m t' := by
  induction m with
  | nil => rfl
  | cons p rest ih =>
    rw [sumsAdd_cons]
    by_cases hp : p.1 = t
    · have hne : ¬ p.1 = t' := fun hc => h (hc ▸ hp ▸ rfl)
      rw [if_pos hp, dictGet_cons, dictGet_cons, if_neg hne]
      have : ¬ (p.1 = t') := hne
      rw [if_neg (by simpa [hp] using hne : ¬ (p.1, p.2 + v).1 = t')]
      exact ih
    · rw [if_neg hp, dictGet_cons, dictGet_cons]
      by_cases hp' : p.1 = t'
      · rw [if_pos hp', if_pos hp']
      · rw [if_neg hp', if_neg hp']
        exact ih

/-! ### The effective (possibly reflected) value of an item -/

/-- The value the loop accumulates for pair `p`: the parsed answer,
reflected via `sMin + sMax - v` when the item is reverse-keyed; `none`
when the answer is absent or does not parse. -/
def effVal (form : FormDict) (sMin sMax : Int) (p : Int × Item) : Option Int :=
  match form ("q" ++ toString p.1) with
  | none => none
  | some fv =>
    match parseInt fv with
    | none => none
    | some v => some (if p.2.reverse then sMin + sMax - v else v)

/-- Number of (deduplicated) items carrying trait `t`. -/
def countTrait (pairs : List (Int × Item)) (t : String) : Nat :=
  (pairs.filter (fun p => p.2.trait == t)).length

/-! ### Structure of a successful run of the item loop -/

theorem processItems_ok_dictGet (form : FormDict) (sMin sMax : Int) :
    ∀ (pairs : List (Int × Item)) (sums sums' : Sums),
      processItems form sMin sMax pairs sums = .ok sums' →
      ∀ t : String, sumsMem sums t = true →
      dictGet sums' t = dictGet sums t +
        (((pairs.filter (fun p => p.2.trait == t)).map
          (fun p => (effVal form sMin sMax p).getD 0)).sum) := by
  intro pairs
  induction pairs with
  | nil =>
    intro sums sums' h t _
    simp only [processItems] at h
    cases h
    simp
  | cons p rest ih =>
    intro sums sums' h t hmem
    obtain ⟨qid, item⟩ := p
    cases hform : form ("q" ++ toString qid) with
    | none => simp [processItems, hform] at h
    | some fv =>
      cases hparse : parseInt fv with
      | none => simp [processItems, hform, hparse] at h
      | some v0 =>
        cases htr : sumsMem sums item.trait with
        | false => simp [processItems, hform, hparse, htr] at h
        | true =>
          simp only [processItems, hform, hparse, htr, if_true] at h
          have heff : effVal form sMin sMax (qid, item)
              = some (if item.reverse then sMin + sMax - v0 else v0) := by
            simp [effVal, hform, hparse]
          have hmem' : sumsMem (sumsAdd sums item.trait
              (if item.reverse then sMin + sMax - v0 else v0)) t = true := by
            rw [sumsMem_sumsAdd]; exact hmem
          have hrec := ih _ _ h t hmem'
          rw [hrec]
          by_cases hti : item.trait = t
          · subst hti
            rw [List.filter_cons]
            have hb : ((qid, item).2.trait == item.trait) = true := by simp
            rw [hb, if_pos rfl, List.map_cons, List.sum_cons, heff]
            simp only [Option.getD_some]
            rw [dictGet_sumsAdd_same _ hmem]
            ring
          · rw [List.filter_cons]
            have hb : ((qid, item).2.trait == t) = false := by
              simpa using fun hc => hti hc
            rw [hb, if_neg Bool.false_ne_true,
              dictGet_sumsAdd_ne _ _ (fun hc => hti hc.symm)]

theorem sumsMem_initSums (t : String) : sumsMem initSums t = true ↔ t ∈ traits := by
  show (initSums.any (fun p => p.1 == t)) = true ↔ t ∈ traits
  rw [show initSums = [("O", (0 : Int)), ("C", 0), ("E", 0), ("A", 0), ("N", 0)] from rfl]
  rw [show traits = ["O", "C", "E", "A", "N"] from rfl]
  simp only [List.any_cons, List.any_nil, Bool.or_eq_true, beq_iff_eq,
    List.mem_cons, List.not_mem_nil, or_false, Bool.false_eq_true]
  constructor
  · rintro (h | h | h | h | h) <;> simp [h]
  · rintro (h | h | h | h | h) <;> simp [h]

theorem processItems_total (form : FormDict) (sMin sMax : Int) :
    ∀ (pairs : List (Int × Item)) (sums : Sums),
      (∀ p ∈ pairs,
        (∃ fv v, form ("q" ++ toString p.1) = some fv ∧ parseInt fv = some v) ∧
        sumsMem sums p.2.trait = true) →
      ∃ sums', processItems form sMin sMax pairs sums = .ok sums' := by
  intro pairs
  induction pairs with
  | nil => intro sums _; exact ⟨sums, rfl⟩
  | cons p rest ih =>
    intro sums h
    obtain ⟨qid, item⟩ := p
    obtain ⟨⟨fv, v, hform, hparse⟩, htr⟩ := h _ (List.mem_cons_self _ _)
    obtain ⟨sums', hs⟩ := ih (sumsAdd sums item.trait
        (if item.reverse then sMin + sMax - v else v))
      (fun q hq => by
        obtain ⟨hq1, hq2⟩ := h q (List.mem_cons_of_mem _ hq)
        exact ⟨hq1, by rw [sumsMem_sumsAdd]; exact hq2⟩)
    refine ⟨sums', ?_⟩
    simp only [processItems, hform, hparse, htr, if_true]
    exact hs

theorem processItems_missing (form : FormDict) (sMin sMax : Int) :
    ∀ (pre : List (Int × Item)) (qid : Int) (item : Item)
      (post : List (Int × Item)) (sums : Sums),
      (∀ p ∈ pre,
        (∃ fv v, form ("q" ++ toString p.1) = some fv ∧ parseInt fv = some v) ∧
        sumsMem sums p.2.trait = true) →
      form ("q" ++ toString qid) = none →
      processItems form sMin sMax (pre ++ (qid, item) :: post) sums
        = .error (.missingAnswer qid) := by
  intro pre
  induction pre with
  | nil =>
    intro qid item post sums _ hmiss
    simp [processItems, hmiss]
  | cons p pre' ih =>
    intro qid item post sums h hmiss
    obtain ⟨pid, pitem⟩ := p
    obtain ⟨⟨fv, v, hform, hparse⟩, htr⟩ := h _ (List.mem_cons_self _ _)
    have hrec := ih qid item post (sumsAdd sums pitem.trait
        (if pitem.reverse then sMin + sMax - v else v))
      (fun q hq => by
        obtain ⟨hq1, hq2⟩ := h q (List.mem_cons_of_mem _ hq)
        exact ⟨hq1, by rw [sumsMem_sumsAdd]; exact hq2⟩) hmiss
    simp only [List.cons_append, processItems, hform, hparse, htr, if_true]
    exact hrec

theorem processItems_congr (form1 form2 : FormDict) (sMin sMax : Int) :
    ∀ (pairs : List (Int × Item)) (sums : Sums),
      (∀ p ∈ pairs, form1 ("q" ++ toString p.1) = form2 ("q" ++ toString p.1)) →
      processItems form1 sMin sMax pairs sums
        = processItems form2 sMin sMax pairs sums := by
  intro pairs
  induction pairs with
  | nil => intro sums _; rfl
  | cons p rest ih =>
    intro sums h
    obtain ⟨qid, item⟩ := p
    have hrest : ∀ p ∈ rest, form1 ("q" ++ toString p.1) = form2 ("q" ++ toString p.1) :=
      fun q hq => h q (List.mem_cons_of_mem _ hq)
    have h1 := h _ (List.mem_cons_self (qid, item) rest)
    cases hf2 : form2 ("q" ++ toString qid) with
    | none => simp [processItems, h1, hf2]
    | some fv =>
      cases hp : parseInt fv with
      | none => simp [processItems, h1, hf2, hp]
      | some v0 =>
        cases htr : sumsMem sums item.trait with
        | false => simp [processItems, h1, hf2, hp, htr]
        | true =>
          simp only [processItems, h1, hf2, hp, htr, if_true]
          exact ih _ hrest

theorem processItems_ok_keys (form : FormDict) (sMin sMax : Int) :
    ∀ (pairs : List (Int × Item)) (sums sums' : Sums),
      processItems form sMin sMax pairs sums = .ok sums' →
      sums'.map Prod.fst = sums.map Prod.fst := by
  intro pairs
  induction pairs with
  | nil =>
    intro sums sums' h
    simp only [processItems] at h
    cases h
    rfl
  | cons p rest ih =>
    intro sums sums' h
    obtain ⟨qid, item⟩ := p
    cases hform : form ("q" ++ toString qid) with
    | none => simp [processItems, hform] at h
    | some fv =>
      cases hparse : parseInt fv with
      | none => simp [processItems, hform, hparse] at h
      | some v0 =>
        cases htr : sumsMem sums item.trait with
        | false => simp [processItems, hform, hparse, htr] at h
        | true =>
          simp only [processItems, hform, hparse, htr, if_true] at h
          rw [ih _ _ h, sumsAdd_keys]

/-! ### Keys of `items_by_id` -/

theorem updItem_keys (m : List (Int × Item)) (i : Int) (it : Item) :
    (m.map (fun p => if p.1 = i then (p.1, it) else p)).map Prod.fst
      = m.map Prod.fst := by
  induction m with
  | nil => rfl
  | cons p rest ih =>
    have hfst : (if p.1 = i then (p.1, it) else p).1 = p.1 := by
      by_cases h : p.1 = i <;> simp [h]
    rw [List.map_cons, List.map_cons, List.map_cons, hfst, ih]

theorem insertItem_key_mem (acc : List (Int × Item)) (it : Item) (k : Int)
    (hk : k ∈ (insertItem acc it).map Prod.fst) :
    k ∈ acc.map Prod.fst ∨ k = it.id := by
  unfold insertItem at hk
  by_cases h : acc.any (fun p => p.1 == it.id)
  · rw [if_pos h, updItem_keys] at hk
    exact Or.inl hk
  · rw [if_neg h, List.map_append] at hk
    rcases List.mem_append.mp hk with h1 | h1
    · exact Or.inl h1
    · simp at h1
      exact Or.inr h1

theorem foldl_insertItem_key (items : List Item) :
    ∀ (acc : List (Int × Item)) (k : Int), k ∈ (items.foldl insertItem acc).map Prod.fst →
      k ∈ acc.map Prod.fst ∨ ∃ it ∈ items, it.id = k := by
  induction items with
  | nil => intro acc k hk; exact Or.inl hk
  | cons it rest ih =>
    intro acc k hk
    rw [List.foldl_cons] at hk
    rcases ih (insertItem acc it) k hk with h1 | ⟨it', hit', hid⟩
    · rcases insertItem_key_mem acc it k h1 with h2 | h2
      · exact Or.inl h2
      · exact Or.inr ⟨it, List.mem_cons_self _ _, h2.symm⟩
    · exact Or.inr ⟨it', List.mem_cons_of_mem _ hit', hid⟩

theorem itemsById_key {items : List Item} {p : Int × Item}
    (hp : p ∈ itemsById items) : ∃ it ∈ items, it.id = p.1 := by
  have hk : p.1 ∈ (itemsById items).map Prod.fst := List.mem_map_of_mem Prod.fst hp
  rcases foldl_insertItem_key items [] p.1 hk with h | h
  · simp at h
  · exact h

/-! ### Elementary sum bounds for lists of integers -/

theorem list_sum_le_length_mul (l : List Int) (b : Int)
    (h : ∀ x ∈ l, x ≤ b) : l.sum ≤ (l.length : Int) * b := by
  induction l with
  | nil => simp
  | cons x xs ih =>
    have hx := h x (List.mem_cons_self _ _)
    have hxs := ih (fun y hy => h y (List.mem_cons_of_mem _ hy))
    simp only [List.sum_cons, List.length_cons]
    push_cast
    nlinarith

theorem length_mul_le_list_sum (l : List Int) (a : Int)
    (h : ∀ x ∈ l, a ≤ x) : (l.length : Int) * a ≤ l.sum := by
  induction l with
  | nil => simp
  | cons x xs ih =>
    have hx := h x (List.mem_cons_self _ _)
    have hxs := ih (fun y hy => h y (List.mem_cons_of_mem _ hy))
    simp only [List.sum_cons, List.length_cons]
    push_cast
    nlinarith

theorem list_sum_const (l : List Int) (c : Int)
    (h : ∀ x ∈ l, x = c) : l.sum = (l.length : Int) * c := by
  induction l with
  | nil => simp
  | cons x xs ih =>
    have hx := h x (List.mem_cons_self _ _)
    have hxs := ih (fun y hy => h y (List.mem_cons_of_mem _ hy))
    simp only [List.sum_cons, List.length_cons]
    push_cast
    nlinarith

/-! ### Unfolding `score_answers` -/

theorem score_answers_of_ok {form : FormDict} {spec : Spec} {sums : Sums}
    (h : processItems form spec.scale.min spec.scale.max (itemsById spec.items) initSums
      = Except.ok sums) :
    score_answers form spec = Except.ok
      ⟨sums, percentMap spec.scale.min spec.scale.max sums,
        [("Apertura (O)", dictGet sums "O",
            dictGet (percentMap spec.scale.min spec.scale.max sums) "O"),
         ("Responsabilidad (C)", dictGet sums "C",
            dictGet (percentMap spec.scale.min spec.scale.max sums) "C"),
         ("Extraversión (E)", dictGet sums "E",
            dictGet (percentMap spec.scale.min spec.scale.max sums) "E"),
         ("Amabilidad (A)", dictGet sums "A",
            dictGet (percentMap spec.scale.min spec.scale.max sums) "A"),
         ("Neuroticismo (N)", dictGet sums "N",
            dictGet (percentMap spec.scale.min spec.scale.max sums) "N")]⟩ := by
  unfold score_answers
  rw [h]

theorem score_answers_of_error {form : FormDict} {spec : Spec} {e : ScoreError}
    (h : processItems form spec.scale.min spec.scale.max (itemsById spec.items) initSums
      = Except.error e) :
    score_answers form spec = Except.error e := by
  unfold score_answers
  rw [h]

theorem score_answers_ok_inv {form : FormDict} {spec : Spec} {r : ScoreResult}
    (h : score_answers form spec = Except.ok r) :
    processItems form spec.scale.min spec.scale.max (itemsById spec.items) initSums
        = Except.ok r.sums ∧
      r.percent = percentMap spec.scale.min spec.scale.max r.sums := by
  unfold score_answers at h
  cases hps : processItems form spec.scale.min spec.scale.max (itemsById spec.items) initSums with
  | error e => rw [hps] at h; cases h
  | ok sums =>
    rw [hps] at h
    simp only [Except.ok.injEq] at h
    subst h
    exact ⟨rfl, rfl⟩

theorem dictGet_initSums (t : String) : dictGet initSums t = 0 := by
  rw [show initSums = [("O", (0 : Int)), ("C", 0), ("E", 0), ("A", 0), ("N", 0)] from rfl]
  rw [dictGet_cons, dictGet_cons, dictGet_cons, dictGet_cons, dictGet_cons]
  rw [show dictGet [] t = 0 from rfl]
  simp only [ite_self]

theorem dictGet_percentMap (sMin sMax : Int) (sums : Sums) {t : String}
    (ht : t ∈ traits) :
    dictGet (percentMap sMin sMax sums) t = pctOf sMin sMax (dictGet sums t) := by
  rw [show percentMap sMin sMax sums =
      [("O", pctOf sMin sMax (dictGet sums "O")),
       ("C", pctOf sMin sMax (dictGet sums "C")),
       ("E", pctOf sMin sMax (dictGet sums "E")),
       ("A", pctOf sMin sMax (dictGet sums "A")),
       ("N", pctOf sMin sMax (dictGet sums "N"))] from rfl]
  rw [show traits = ["O", "C", "E", "A", "N"] from rfl] at ht
  simp only [List.mem_cons, List.not_mem_nil, or_false] at ht
  rcases ht with h | h | h | h | h <;> subst h <;>
    simp [dictGet_cons]

theorem effVal_in_range {form : FormDict} {sMin sMax : Int} {p : Int × Item}
    {fv : FormVal} {v : Int}
    (hform : form ("q" ++ toString p.1) = some fv) (hparse : parseInt fv = some v)
    (h1 : sMin ≤ v) (h2 : v ≤ sMax) :
    ∃ w, effVal form sMin sMax p = some w ∧ sMin ≤ w ∧ w ≤ sMax := by
  refine ⟨if p.2.reverse then sMin + sMax - v else v, ?_, ?_, ?_⟩
  · simp [effVal, hform, hparse]
  · split <;> omega
  · split <;> omega

theorem pctOf_bounds {sMin sMax s : Int} (hms : sMin ≤ sMax)
    (h1 : 12 * sMin ≤ s) (h2 : s ≤ 12 * sMax) :
    0 ≤ pctOf sMin sMax s ∧ pctOf sMin sMax s ≤ 100 := by
  unfold pctOf normRange maxTotal minTotal
  by_cases he : (12 : Int) * sMax - 12 * sMin ≠ 0
  · rw [if_pos he]
    have hb : (0 : Int) < 12 * sMax - 12 * sMin := by omega
    rw [pyRound_of_pos _ hb]
    refine ⟨pyRoundPos_nonneg hb (by omega), pyRoundPos_le hb (by omega)⟩
  · rw [if_neg he]
    have hs0 : (s - 12 * sMin) * 100 = 0 * 1 := by omega
    rw [pyRound_of_pos _ (by omega : (0 : Int) < 1), hs0,
      pyRoundPos_mul 0 (by omega : (0 : Int) < 1)]
    omega

theorem pctOf_extreme {sMin sMax : Int} (hlt : sMin < sMax) :
    pctOf sMin sMax (12 * sMin) = 0 ∧ pctOf sMin sMax (12 * sMax) = 100 := by
  unfold pctOf normRange maxTotal minTotal
  have hne : (12 : Int) * sMax - 12 * sMin ≠ 0 := by omega
  have hb : (0 : Int) < 12 * sMax - 12 * sMin := by omega
  rw [if_pos hne, pyRound_of_pos _ hb, pyRound_of_pos _ hb]
  constructor
  · rw [show (12 * sMin - 12 * sMin) * 100 = 0 * (12 * sMax - 12 * sMin) from by ring]
    exact pyRoundPos_mul 0 hb
  · rw [show (12 * sMax - 12 * sMin) * 100 = 100 * (12 * sMax - 12 * sMin) from by ring]
    exact pyRoundPos_mul 100 hb

/-! ### Concrete fixtures and claim theorems -/

set_option maxRecDepth 8000

def item1O : Item := ⟨1, "Item 1", "O", false⟩

def spec1 : Spec := ⟨⟨1, 5⟩, [item1O]⟩

def form1 : FormDict := fun s => if s = "q1" then some (.intVal 7) else none

def r1 : ScoreResult :=
  ⟨[("O", 7), ("C", 0), ("E", 0), ("A", 0), ("N", 0)],
   [("O", -10), ("C", -25), ("E", -25), ("A", -25), ("N", -25)],
   [("Apertura (O)", 7, -10), ("Responsabilidad (C)", 0, -25),
    ("Extraversión (E)", 0, -25), ("Amabilidad (A)", 0, -25),
    ("Neuroticismo (N)", 0, -25)]⟩

/-- Claim C1, counterexample: on scale `[1,5]`, a response value of `7`
is not rejected as out of range — `score_answers` succeeds and the value
`7` is accumulated into the `O` sum. -/
theorem c1_value_seven_is_scored :
    score_answers form1 spec1 = Except.ok r1 ∧ dictGet r1.sums "O" = 7 := by
  constructor <;> decide

/-- Claim C1, amended: `score_answers` performs no range validation at
all: whenever every item of the instrument has a present answer that
parses as an integer and a trait among the five known codes, scoring
succeeds, regardless of whether any value lies inside
`[scale.min, scale.max]`. -/
theorem score_accepts_any_integer (form : FormDict) (spec : Spec)
    (h : ∀ p ∈ itemsById spec.items,
      (∃ fv v, form ("q" ++ toString p.1) = some fv ∧ parseInt fv = some v) ∧
      p.2.trait ∈ traits) :
    ∃ r, score_answers form spec = Except.ok r := by
  obtain ⟨sums', hs⟩ := processItems_total form spec.scale.min spec.scale.max
    (itemsById spec.items) initSums
    (fun p hp => ⟨(h p hp).1, (sumsMem_initSums _).mpr (h p hp).2⟩)
  exact ⟨_, score_answers_of_ok hs⟩

/-- Witness for `score_accepts_any_integer`: the out-of-range value `7`
on scale `[1,5]` is accepted. -/
theorem score_accepts_any_integer_witness :
    ∃ r, score_answers form1 spec1 = Except.ok r := by
  apply score_accepts_any_integer form1 spec1
  intro p hp
  rw [show itemsById spec1.items = [(1, item1O)] from rfl] at hp
  rw [List.mem_singleton.mp hp]
  exact ⟨⟨.intVal 7, 7, by decide, rfl⟩, by decide⟩

def spec2 : Spec := ⟨⟨1, 5⟩, [⟨1, "Item 1", "O", false⟩, ⟨2, "Item 2", "O", true⟩]⟩

def form2 : FormDict := fun s =>
  if s = "q1" then some (.intVal 4) else if s = "q2" then some (.intVal 2) else none

def r2 : ScoreResult :=
  ⟨[("O", 8), ("C", 0), ("E", 0), ("A", 0), ("N", 0)],
   [("O", -8), ("C", -25), ("E", -25), ("A", -25), ("N", -25)],
   [("Apertura (O)", 8, -8), ("Responsabilidad (C)", 0, -25),
    ("Extraversión (E)", 0, -25), ("Amabilidad (A)", 0, -25),
    ("Neuroticismo (N)", 0, -25)]⟩

/-- Claim C2, counterexample: for the two-item scenario (scale `[1,5]`,
both items trait `O`, item 2 reverse, answers 4 and 2) the sum is 8, but
the `O` percentage is `-8`, not the claimed `75`, because normalization
divides by the fixed 12-item range, not the trait's own item count. -/
theorem c2_two_item_percentage_is_minus_eight :
    score_answers form2 spec2 = Except.ok r2 ∧
    dictGet r2.sums "O" = 8 ∧ dictGet r2.percent "O" = -8 ∧ (-8 : Int) ≠ 75 := by
  refine ⟨by decide, by decide, by decide, by decide⟩

/-- Claim C2, amended: `score_answers` normalizes every trait with the
fixed constant 12 (`minTotal = 12 * scale.min`,
`maxTotal = 12 * scale.max`), not the trait's own item count:
`percent[t] = int(round((sums[t] - 12*min) * 100 / rng))` where `rng` is
`12*max - 12*min` (or 1 when that is zero). -/
theorem score_percent_fixed_twelve (form : FormDict) (spec : Spec) (r : ScoreResult)
    (h : score_answers form spec = Except.ok r) :
    r.percent = traits.map (fun t =>
      (t, pyRound ((dictGet r.sums t - 12 * spec.scale.min) * 100)
            (normRange spec.scale.min spec.scale.max))) := by
  obtain ⟨_, hpct⟩ := score_answers_ok_inv h
  rw [hpct]
  rfl

/-- Witness for `score_percent_fixed_twelve`: the two-item scenario. -/
theorem score_percent_fixed_twelve_witness :
    r2.percent = traits.map (fun t =>
      (t, pyRound ((dictGet r2.sums t - 12 * spec2.scale.min) * 100)
            (normRange spec2.scale.min spec2.scale.max))) :=
  score_percent_fixed_twelve form2 spec2 r2 (by decide)

def spec3 : Spec := ⟨⟨1, 5⟩, [⟨1, "Item 1", "O", false⟩]⟩

def form3 : FormDict := fun s => if s = "q1" then some (.intVal 1) else none

def r3 : ScoreResult :=
  ⟨[("O", 1), ("C", 0), ("E", 0), ("A", 0), ("N", 0)],
   [("O", -23), ("C", -25), ("E", -25), ("A", -25), ("N", -25)],
   [("Apertura (O)", 1, -23), ("Responsabilidad (C)", 0, -25),
    ("Extraversión (E)", 0, -25), ("Amabilidad (A)", 0, -25),
    ("Neuroticismo (N)", 0, -25)]⟩

/-- Claim C3, counterexample: a one-item instrument on scale `[1,5]` with
the valid in-range answer `1` yields an `O` percentage of `-23`, outside
`[0, 100]` (the fixed 12-item normalization underflows). -/
theorem c3_valid_input_percentage_below_zero :
    score_answers form3 spec3 = Except.ok r3 ∧
    dictGet r3.percent "O" = -23 ∧ ¬ (0 : Int) ≤ -23 := by
  refine ⟨by decide, by decide, by decide⟩

/-- Claim C3, amended: for instruments in which the trait `t` has exactly
12 (distinct-id) items — the shape of the reference instrument — and
every answer is a present in-range integer, the percentage of `t` lies in
`[0, 100]`. -/
theorem score_percent_in_range (form : FormDict) (spec : Spec) (r : ScoreResult)
    (t : String)
    (hms : spec.scale.min ≤ spec.scale.max)
    (ht : t ∈ traits)
    (hcount : countTrait (itemsById spec.items) t = 12)
    (hok : score_answers form spec = Except.ok r)
    (hval : ∀ p ∈ itemsById spec.items, ∃ fv v,
      form ("q" ++ toString p.1) = some fv ∧ parseInt fv = some v ∧
      spec.scale.min ≤ v ∧ v ≤ spec.scale.max) :
    0 ≤ dictGet r.percent t ∧ dictGet r.percent t ≤ 100 := by
  obtain ⟨hps, hpct⟩ := score_answers_ok_inv hok
  have hmem0 : sumsMem initSums t = true := (sumsMem_initSums t).mpr ht
  have hsum := processItems_ok_dictGet form spec.scale.min spec.scale.max
    (itemsById spec.items) initSums r.sums hps t hmem0
  rw [dictGet_initSums, zero_add] at hsum
  have hbound : ∀ x ∈ (((itemsById spec.items).filter
      (fun p => p.2.trait == t)).map
        (fun p => (effVal form spec.scale.min spec.scale.max p).getD 0)),
      spec.scale.min ≤ x ∧ x ≤ spec.scale.max := by
    intro x hx
    obtain ⟨p, hpF, hfx⟩ := List.mem_map.mp hx
    obtain ⟨fv, v, hform, hparse, h1, h2⟩ := hval p (List.mem_of_mem_filter hpF)
    obtain ⟨w, hw, hw1, hw2⟩ := effVal_in_range hform hparse h1 h2
    rw [← hfx, hw, Option.getD_some]
    exact ⟨hw1, hw2⟩
  have hlen : ((((itemsById spec.items).filter (fun p => p.2.trait == t)).map
      (fun p => (effVal form spec.scale.min spec.scale.max p).getD 0)).length : Int)
        = 12 := by
    rw [List.length_map]
    rw [show ((itemsById spec.items).filter (fun p => p.2.trait == t)).length
        = countTrait (itemsById spec.items) t from rfl, hcount]
    norm_num
  have hle := list_sum_le_length_mul _ spec.scale.max (fun x hx => (hbound x hx).2)
  have hge := length_mul_le_list_sum _ spec.scale.min (fun x hx => (hbound x hx).1)
  rw [hlen] at hle hge
  rw [hpct, dictGet_percentMap _ _ _ ht]
  exact pctOf_bounds hms (by omega) (by omega)

def spec3w : Spec := ⟨⟨1, 5⟩,
  [⟨1, "", "O", false⟩, ⟨2, "", "O", false⟩, ⟨3, "", "O", false⟩,
   ⟨4, "", "O", false⟩, ⟨5, "", "O", false⟩, ⟨6, "", "O", false⟩,
   ⟨7, "", "O", false⟩, ⟨8, "", "O", false⟩, ⟨9, "", "O", false⟩,
   ⟨10, "", "O", false⟩, ⟨11, "", "O", false⟩, ⟨12, "", "O", false⟩]⟩

def form3w : FormDict := fun _ => some (.intVal 3)

def r3w : ScoreResult :=
  ⟨[("O", 36), ("C", 0), ("E", 0), ("A", 0), ("N", 0)],
   [("O", 50), ("C", -25), ("E", -25), ("A", -25), ("N", -25)],
   [("Apertura (O)", 36, 50), ("Responsabilidad (C)", 0, -25),
    ("Extraversión (E)", 0, -25), ("Amabilidad (A)", 0, -25),
    ("Neuroticismo (N)", 0, -25)]⟩

/-- Witness for `score_percent_in_range`: a 12-item `O` instrument with
every answer 3 gives an `O` percentage of 50, inside `[0, 100]`. -/
theorem score_percent_in_range_witness :
    0 ≤ dictGet r3w.percent "O" ∧ dictGet r3w.percent "O" ≤ 100 := by
  apply score_percent_in_range form3w spec3w r3w "O" (by decide) (by decide)
    (by decide) (by decide)
  intro p hp
  exact ⟨.intVal 3, 3, rfl, rfl, by decide, by decide⟩

/-- Claim C4: one loop step accumulates `sMin + sMax - v` for a
reverse-keyed item and the raw `v` for a non-reverse item, for any scale
bounds. -/
theorem processItems_reflects_reverse (form : FormDict) (sMin sMax v qid : Int)
    (item : Item) (rest : List (Int × Item)) (sums : Sums) (fv : FormVal)
    (hform : form ("q" ++ toString qid) = some fv)
    (hparse : parseInt fv = some v)
    (hmem : sumsMem sums item.trait = true) :
    processItems form sMin sMax ((qid, item) :: rest) sums
      = processItems form sMin sMax rest
          (sumsAdd sums item.trait (if item.reverse then sMin + sMax - v else v)) := by
  simp only [processItems, hform, hparse, hmem, if_true]

def revItem : Item := ⟨1, "Item 1", "O", true⟩

/-- Witness for `processItems_reflects_reverse`: on scale `[1,5]`, a
reverse item scores raw 1 as 5, raw 5 as 1, and raw 3 as 3. -/
theorem processItems_reflects_reverse_witness :
    processItems (fun _ => some (.intVal 1)) 1 5 [(1, revItem)] initSums
        = Except.ok [("O", 5), ("C", 0), ("E", 0), ("A", 0), ("N", 0)] ∧
    processItems (fun _ => some (.intVal 5)) 1 5 [(1, revItem)] initSums
        = Except.ok [("O", 1), ("C", 0), ("E", 0), ("A", 0), ("N", 0)] ∧
    processItems (fun _ => some (.intVal 3)) 1 5 [(1, revItem)] initSums
        = Except.ok [("O", 3), ("C", 0), ("E", 0), ("A", 0), ("N", 0)] := by
  refine ⟨?_, ?_, ?_⟩
  · rw [processItems_reflects_reverse (fun _ => some (.intVal 1)) 1 5 1 1 revItem []
      initSums (.intVal 1) rfl rfl (by decide)]
    decide
  · rw [processItems_reflects_reverse (fun _ => some (.intVal 5)) 1 5 5 1 revItem []
      initSums (.intVal 5) rfl rfl (by decide)]
    decide
  · rw [processItems_reflects_reverse (fun _ => some (.intVal 3)) 1 5 3 1 revItem []
      initSums (.intVal 3) rfl rfl (by decide)]
    decide

def spec5 : Spec := ⟨⟨1, 5⟩, [⟨1, "Item 1", "O", false⟩]⟩

def form5 : FormDict := fun s => if s = "q1" then some (.intVal 5) else none

def r5 : ScoreResult :=
  ⟨[("O", 5), ("C", 0), ("E", 0), ("A", 0), ("N", 0)],
   [("O", -15), ("C", -25), ("E", -25), ("A", -25), ("N", -25)],
   [("Apertura (O)", 5, -15), ("Responsabilidad (C)", 0, -25),
    ("Extraversión (E)", 0, -25), ("Amabilidad (A)", 0, -25),
    ("Neuroticismo (N)", 0, -25)]⟩

/-- Claim C5, counterexample: a trait with a single item (not twelve)
that receives the scale maximum 5 on `[1,5]` gets percentage `-15`, not
100. -/
theorem c5_one_item_maximum_not_hundred :
    score_answers form5 spec5 = Except.ok r5 ∧
    dictGet r5.percent "O" = -15 ∧ (-15 : Int) ≠ 100 := by
  refine ⟨by decide, by decide, by decide⟩

/-- Claim C5, amended: for a trait with exactly 12 (distinct-id) items on
a scale with `min < max`, if every item of the trait accumulates the
constant `c`, the trait's percentage is exactly 0 when `c` is the scale
minimum and exactly 100 when `c` is the scale maximum. -/
theorem score_extremes_twelve_items (form : FormDict) (spec : Spec) (r : ScoreResult)
    (t : String) (c : Int)
    (hlt : spec.scale.min < spec.scale.max)
    (ht : t ∈ traits)
    (hcount : countTrait (itemsById spec.items) t = 12)
    (hok : score_answers form spec = Except.ok r)
    (heff : ∀ p ∈ itemsById spec.items, p.2.trait = t →
      effVal form spec.scale.min spec.scale.max p = some c) :
    (c = spec.scale.min → dictGet r.percent t = 0) ∧
    (c = spec.scale.max → dictGet r.percent t = 100) := by
  obtain ⟨hps, hpct⟩ := score_answers_ok_inv hok
  have hmem0 : sumsMem initSums t = true := (sumsMem_initSums t).mpr ht
  have hsum := processItems_ok_dictGet form spec.scale.min spec.scale.max
    (itemsById spec.items) initSums r.sums hps t hmem0
  rw [dictGet_initSums, zero_add] at hsum
  have hconst : ∀ x ∈ (((itemsById spec.items).filter
      (fun p => p.2.trait == t)).map
        (fun p => (effVal form spec.scale.min spec.scale.max p).getD 0)), x = c := by
    intro x hx
    obtain ⟨p, hpF, hfx⟩ := List.mem_map.mp hx
    have hmemP := List.mem_of_mem_filter hpF
    have htr : p.2.trait = t := by simpa using List.of_mem_filter hpF
    rw [← hfx, heff p hmemP htr, Option.getD_some]
  have hlen : ((((itemsById spec.items).filter (fun p => p.2.trait == t)).map
      (fun p => (effVal form spec.scale.min spec.scale.max p).getD 0)).length : Int)
        = 12 := by
    rw [List.length_map]
    rw [show ((itemsById spec.items).filter (fun p => p.2.trait == t)).length
        = countTrait (itemsById spec.items) t from rfl, hcount]
    norm_num
  rw [list_sum_const _ c hconst, hlen] at hsum
  rw [hpct, dictGet_percentMap _ _ _ ht]
  constructor
  · intro hc
    subst hc
    rw [hsum]
    exact (pctOf_extreme hlt).1
  · intro hc
    subst hc
    rw [hsum]
    exact (pctOf_extreme hlt).2

def spec5w : Spec := ⟨⟨1, 5⟩,
  [⟨1, "", "O", false⟩, ⟨2, "", "O", false⟩, ⟨3, "", "O", false⟩,
   ⟨4, "", "O", false⟩, ⟨5, "", "O", false⟩, ⟨6, "", "O", false⟩,
   ⟨7, "", "O", false⟩, ⟨8, "", "O", false⟩, ⟨9, "", "O", false⟩,
   ⟨10, "", "O", false⟩, ⟨11, "", "O", false⟩, ⟨12, "", "O", false⟩]⟩

def form5w : FormDict := fun _ => some (.intVal 1)

def r5w : ScoreResult :=
  ⟨[("O", 12), ("C", 0), ("E", 0), ("A", 0), ("N", 0)],
   [("O", 0), ("C", -25), ("E", -25), ("A", -25), ("N", -25)],
   [("Apertura (O)", 12, 0), ("Responsabilidad (C)", 0, -25),
    ("Extraversión (E)", 0, -25), ("Amabilidad (A)", 0, -25),
    ("Neuroticismo (N)", 0, -25)]⟩

/-- Witness for `score_extremes_twelve_items`: 12 `O` items all answered
with the scale minimum 1 give an `O` percentage of exactly 0. -/
theorem score_extremes_twelve_items_witness : dictGet r5w.percent "O" = 0 :=
  (score_extremes_twelve_items form5w spec5w r5w "O" 1 (by decide) (by decide)
    (by decide) (by decide) (by decide)).1 rfl

def spec6 : Spec := ⟨⟨1, 5⟩, [⟨1, "Item 1", "O", false⟩]⟩

def form6 : FormDict := fun s => if s = "q1" then some (.intVal 3) else none

def r6 : ScoreResult :=
  ⟨[("O", 3), ("C", 0), ("E", 0), ("A", 0), ("N", 0)],
   [("O", -19), ("C", -25), ("E", -25), ("A", -25), ("N", -25)],
   [("Apertura (O)", 3, -19), ("Responsabilidad (C)", 0, -25),
    ("Extraversión (E)", 0, -25), ("Amabilidad (A)", 0, -25),
    ("Neuroticismo (N)", 0, -25)]⟩

/-- Claim C6, counterexample: for an instrument whose items carry only
the trait `O`, the returned `sums` and `percentages` still contain
entries for all five hardcoded codes (e.g. `N`), not only for the traits
appearing in the instrument. -/
theorem c6_output_has_all_five_keys :
    score_answers form6 spec6 = Except.ok r6 ∧
    r6.sums.map Prod.fst ≠ ["O"] ∧ "N" ∈ r6.percent.map Prod.fst := by
  refine ⟨by decide, by decide, by decide⟩

/-- Claim C6, amended: every successful `score_answers` result carries
exactly the five hardcoded trait keys `O, C, E, A, N` (in that order) in
both `sums` and `percentages`, independent of which traits the
instrument's items actually use. -/
theorem score_keys_fixed (form : FormDict) (spec : Spec) (r : ScoreResult)
    (h : score_answers form spec = Except.ok r) :
    r.sums.map Prod.fst = traits ∧ r.percent.map Prod.fst = traits := by
  obtain ⟨hps, hpct⟩ := score_answers_ok_inv h
  constructor
  · rw [processItems_ok_keys form spec.scale.min spec.scale.max _ _ _ hps]
    rfl
  · rw [hpct]
    rfl

/-- Witness for `score_keys_fixed`: the single-`O`-item instrument. -/
theorem score_keys_fixed_witness :
    r6.sums.map Prod.fst = traits ∧ r6.percent.map Prod.fst = traits :=
  score_keys_fixed form6 spec6 r6 (by decide)

def spec7 : Spec := ⟨⟨1, 5⟩, [⟨1, "Item 1", "O", false⟩]⟩

def form7 : FormDict := fun s => if s = "q1" then some (.intVal 2) else none

def r7 : ScoreResult :=
  ⟨[("O", 2), ("C", 0), ("E", 0), ("A", 0), ("N", 0)],
   [("O", -21), ("C", -25), ("E", -25), ("A", -25), ("N", -25)],
   [("Apertura (O)", 2, -21), ("Responsabilidad (C)", 0, -25),
    ("Extraversión (E)", 0, -25), ("Amabilidad (A)", 0, -25),
    ("Neuroticismo (N)", 0, -25)]⟩

/-- Claim C7, counterexample: a trait with zero items (here `C`, in a
one-item `O` instrument on scale `[1,5]`) gets percentage `-25`, not the
claimed 0 — the normalization range is global (12-item based), not
per-trait, so only the division-by-zero part of the claim survives. -/
theorem c7_zero_item_trait_not_zero :
    score_answers form7 spec7 = Except.ok r7 ∧
    dictGet r7.percent "C" = -25 ∧ (-25 : Int) ≠ 0 := by
  refine ⟨by decide, by decide, by decide⟩

/-- Claim C7, amended: the normalization divisor `rng` is never zero
(`score_answers` cannot raise a division-by-zero): it equals
`12*max - 12*min` when that is nonzero and is replaced by 1 when the
scale is degenerate (`min = max`). -/
theorem normRange_ne_zero (sMin sMax : Int) :
    normRange sMin sMax ≠ 0 ∧ (sMin = sMax → normRange sMin sMax = 1) := by
  unfold normRange maxTotal minTotal
  by_cases h : (12 : Int) * sMax - 12 * sMin ≠ 0
  · rw [if_pos h]
    exact ⟨h, fun he => absurd (by omega : (12 : Int) * sMax - 12 * sMin = 0) h⟩
  · rw [if_neg h]
    exact ⟨one_ne_zero, fun _ => rfl⟩

/-- Witness for `normRange_ne_zero`: the degenerate scale `[3,3]`. -/
theorem normRange_ne_zero_witness : normRange 3 3 = 1 ∧ normRange 3 3 ≠ 0 :=
  ⟨(normRange_ne_zero 3 3).2 rfl, (normRange_ne_zero 3 3).1⟩

def spec8c : Spec := ⟨⟨1, 5⟩, [⟨1, "Item 1", "O", false⟩, ⟨2, "Item 2", "O", false⟩]⟩

def form8c : FormDict := fun s => if s = "q1" then some .nonInt else none

/-- Claim C8, counterexample: with item 2 missing from the responses but
item 1 present with a non-integer value, the engine fails with the
invalid-value error for item 1, not with a missing-answer error for item
2 — a missing item is not always reported as `MissingAnswer`. -/
theorem c8_invalid_preempts_missing :
    score_answers form8c spec8c = Except.error (.invalidValue 1) ∧
    ScoreError.invalidValue 1 ≠ ScoreError.missingAnswer 2 := by
  refine ⟨by decide, by decide⟩

/-- Claim C8, amended: when every item preceding the first missing item
(in `items_by_id` order) has a present integer answer of a known trait,
the engine fails with `MissingAnswer` of that first missing item and
produces no score. -/
theorem score_missing_first (form : FormDict) (spec : Spec)
    (pre : List (Int × Item)) (qid : Int) (item : Item) (post : List (Int × Item))
    (hsplit : itemsById spec.items = pre ++ (qid, item) :: post)
    (hpre : ∀ p ∈ pre,
      (∃ fv v, form ("q" ++ toString p.1) = some fv ∧ parseInt fv = some v) ∧
      p.2.trait ∈ traits)
    (hmiss : form ("q" ++ toString qid) = none) :
    score_answers form spec = Except.error (.missingAnswer qid) := by
  apply score_answers_of_error
  rw [hsplit]
  exact processItems_missing form spec.scale.min spec.scale.max pre qid item post
    initSums
    (fun p hp => ⟨(hpre p hp).1, (sumsMem_initSums _).mpr (hpre p hp).2⟩) hmiss

def spec8w : Spec := ⟨⟨1, 5⟩,
  [⟨1, "Item 1", "O", false⟩, ⟨2, "Item 2", "O", false⟩, ⟨3, "Item 3", "O", false⟩]⟩

def form8w : FormDict := fun s =>
  if s = "q1" then some (.intVal 2) else if s = "q2" then some (.intVal 2) else none

/-- Witness for `score_missing_first`: items `{1,2,3}` with only `{1,2}`
answered fail with `MissingAnswer 3`. -/
theorem score_missing_first_witness :
    score_answers form8w spec8w = Except.error (.missingAnswer 3) := by
  apply score_missing_first form8w spec8w
    [(1, ⟨1, "Item 1", "O", false⟩), (2, ⟨2, "Item 2", "O", false⟩)]
    3 ⟨3, "Item 3", "O", false⟩ []
  · decide
  · intro p hp
    rcases List.mem_cons.mp hp with h | h
    · rw [h]
      exact ⟨⟨.intVal 2, 2, by decide, rfl⟩, by decide⟩
    · rw [List.mem_singleton.mp h]
      exact ⟨⟨.intVal 2, 2, by decide, rfl⟩, by decide⟩
  · decide

/-- Claim C9: `score_answers` is a pure function of its two arguments —
two invocations on equal form dictionaries and equal instrument
definitions return identical results, with no hidden state. -/
theorem score_answers_deterministic (f g : FormDict) (s u : Spec)
    (hf : f = g) (hs : s = u) :
    score_answers f s = score_answers g u := by
  rw [hf, hs]

def spec9 : Spec := ⟨⟨1, 5⟩, [⟨1, "Item 1", "O", false⟩]⟩

def form9 : FormDict := fun s => if s = "q1" then some (.intVal 4) else none

/-- Witness for `score_answers_deterministic`. -/
theorem score_answers_deterministic_witness :
    score_answers form9 spec9 = score_answers form9 spec9 :=
  score_answers_deterministic form9 form9 spec9 spec9 rfl rfl

/-- Claim C10: the engine reads the response set only at the keys
`q{id}` of the instrument's items, so any two form dictionaries that
agree on those keys — whatever extra entries either contains — produce
identical results; extra entries never cause an error. -/
theorem score_ignores_extra_entries (f g : FormDict) (spec : Spec)
    (h : ∀ it ∈ spec.items, f ("q" ++ toString it.id) = g ("q" ++ toString it.id)) :
    score_answers f spec = score_answers g spec := by
  have hagree : ∀ p ∈ itemsById spec.items,
      f ("q" ++ toString p.1) = g ("q" ++ toString p.1) := by
    intro p hp
    obtain ⟨it, hit, hid⟩ := itemsById_key hp
    rw [← hid]
    exact h it hit
  unfold score_answers
  rw [processItems_congr f g spec.scale.min spec.scale.max (itemsById spec.items)
    initSums hagree]

def spec10 : Spec := ⟨⟨1, 5⟩, [⟨1, "Item 1", "O", false⟩]⟩

def form10a : FormDict := fun s => if s = "q1" then some (.intVal 2) else some (.intVal 9)

def form10b : FormDict := fun s => if s = "q1" then some (.intVal 2) else none

/-- Witness for `score_ignores_extra_entries`: a form answering every
extra key with junk scores identically to one holding only `q1`. -/
theorem score_ignores_extra_entries_witness :
    score_answers form10a spec10 = score_answers form10b spec10 := by
  apply score_ignores_extra_entries
  intro it hit
  rw [List.mem_singleton.mp hit]
  decide
